import Mathlib

/-!
Verification development for the streamdeck-url-switcher repository.

The embedding covers:
* `normalizeURL` and `findTabByURL` from `chrome-extension/background.js`;
* `handlePluginMessage` (the browser-side action dispatch) from
  `chrome-extension/background.js`, with the browser tab API modelled as an
  explicit `World`;
* the `ExtensionServer` broker (pending-request table, request-id counter,
  connection flag) from
  `streamdeck-plugin/com.streamdeck.urlswitcher.sdPlugin/plugin.js`,
  as a step relation over an explicit state type;
* the button display mapping (`updateButtonState` / `getURLSnippet`) from the
  same plugin file;
* the stale-request sweep from `native-host/native-host.js`.

Strings are modelled at the level of their character lists.  JavaScript
`toLowerCase` is modelled by `Char.toLower` (faithful on ASCII, which is the
only range the URL-handling code distinguishes).
-/

namespace UrlSwitcher

/-! ## URL normalization (`background.js`, `normalizeURL`)

`normalizeURL` performs, in order:
`toLowerCase`, `replace(/^https?:\/\//,'')`, `replace(/^www\./,'')`,
`replace(/\/$/,'')`, `replace(/#.*$/,'')`.

Each `replace` uses a non-global regex, so it rewrites at most one match.
The last regex strips from the first `#` whose suffix reaches the end of the
string without crossing a line terminator (JS `.` does not match `'\n'`);
equivalently, it strips from the first `#` inside the maximal newline-free
suffix of the string. -/

def lowerL (l : List Char) : List Char := l.map Char.toLower

/-- The characters of `"https://"`. -/
def protoHttps : List Char := ['h', 't', 't', 'p', 's', ':', '/', '/']

/-- The characters of `"http://"`. -/
def protoHttp : List Char := ['h', 't', 't', 'p', ':', '/', '/']

/-- The characters of `"www."`. -/
def wwwDot : List Char := ['w', 'w', 'w', '.']

/-- `replace(/^https?:\/\//, '')`: drop one leading protocol marker. -/
def stripProto (l : List Char) : List Char :=
  if protoHttps.isPrefixOf l then l.drop 8
  else if protoHttp.isPrefixOf l then l.drop 7
  else l

/-- `replace(/^www\./, '')`: drop one leading `www.`. -/
def stripWww (l : List Char) : List Char :=
  if wwwDot.isPrefixOf l then l.drop 4 else l

/-- `replace(/\/$/, '')`: drop one trailing slash. -/
def stripSlash (l : List Char) : List Char :=
  if l.getLast? = some '/' then l.dropLast else l

def notNl (c : Char) : Bool := c != '\n'

/-- The maximal newline-free suffix of `l` (the only region where
`/#.*$/` can match). -/
def seg (l : List Char) : List Char := (l.reverse.takeWhile notNl).reverse

/-- Everything before `seg l` (ends with `'\n'` when nonempty). -/
def pre (l : List Char) : List Char := (l.reverse.dropWhile notNl).reverse

/-- `replace(/#.*$/, '')`: strip from the first `#` whose suffix contains no
line terminator, i.e. the first `#` of `seg l`. -/
def fragStrip (l : List Char) : List Char :=
  if '#' ∈ seg l then pre l ++ (seg l).takeWhile (fun c => c != '#') else l

def normList (l : List Char) : List Char :=
  fragStrip (stripSlash (stripWww (stripProto (lowerL l))))

/-- `normalizeURL` from `background.js` (the `if (!url) return ''` guard kept
verbatim; for a string argument falsity means emptiness). -/
def normalizeURL (s : String) : String :=
  if s = "" then "" else String.mk (normList s.data)

/-! ## Tab directory and `findTabByURL` (`background.js`)

Tabs come from the external `chrome.tabs` API; `getAllTabs` projects them to
the fields below.  `findTabByURL` walks the directory in order and returns the
first tab whose normalized URL equals the normalized target or is related to
it by `startsWith` in either direction. -/

structure Tab where
  id : Nat
  windowId : Nat
  url : String
  title : String
  active : Bool
  favIconUrl : String
deriving DecidableEq, Repr

/-- The loop body of `findTabByURL`; `nt` is the pre-computed
`normalizeURL(targetURL)`.  `startsWith` is rendered as list prefix on the
character data. -/
def findTabAux (nt : String) : List Tab → Option Tab
  | [] => none
  | t :: ts =>
    let ntab := normalizeURL t.url
    if ntab = nt then some t
    else if nt.data.isPrefixOf ntab.data || ntab.data.isPrefixOf nt.data then some t
    else findTabAux nt ts

/-- `findTabByURL` from `background.js`, with the tab directory supplied
explicitly (in the source it is fetched from `chrome.tabs.query`). -/
def findTabByURL (tabs : List Tab) (targetURL : String) : Option Tab :=
  findTabAux (normalizeURL targetURL) tabs

/-! ## Browser-side action dispatch (`background.js`, `handlePluginMessage`)

The `chrome.tabs` / `chrome.windows` effects are modelled by an explicit
`World` fixing the tab directory and the success or failure of the activate
and create calls. -/

structure World where
  tabs : List Tab
  activateOk : Bool
  activateErrMsg : String
  openOk : Bool
  openErrMsg : String
  newTabId : Nat
deriving DecidableEq, Repr

/-- Result object as built by `activateTab` / `openURL` / `switchToURL`
(JS object with optional fields). -/
structure OpResult where
  success : Bool
  error : Option String
  action : Option String
  tab : Option Tab
  tabId : Option Nat
deriving DecidableEq, Repr

/-- `activateTab(tabId, windowId)`: `{success:true}` on success,
`{success:false, error}` on failure.  The outcome of the browser calls is
drawn from the `World`. -/
def activateTabW (w : World) (_tabId _windowId : Nat) : OpResult :=
  if w.activateOk then ⟨true, none, none, none, none⟩
  else ⟨false, some w.activateErrMsg, none, none, none⟩

/-- `openURL(url)`: `{success:true, tabId}` or `{success:false, error}`. -/
def openURLW (w : World) (_url : String) : OpResult :=
  if w.openOk then ⟨true, none, none, none, some w.newTabId⟩
  else ⟨false, some w.openErrMsg, none, none, none⟩

/-- `switchToURL(url)`: activate the first matching tab, else open a new
one; spreads the inner result and adds `action` (and `tab`). -/
def switchToURLW (w : World) (url : String) : OpResult :=
  match findTabByURL w.tabs url with
  | some t => { activateTabW w t.id t.windowId with action := some "activated", tab := some t }
  | none => { openURLW w url with action := some "opened" }

/-- Inbound request envelope as read by `handlePluginMessage`. -/
structure Request where
  id : Nat
  action : String
  url : String
  tabId : Nat
  windowId : Nat
deriving DecidableEq, Repr

/-- A value stored in the `result` field: `'pong'` for `ping`, an object for
the tab operations. -/
inductive RespVal where
  | str (s : String)
  | op (r : OpResult)
deriving DecidableEq, Repr

/-- Response envelope as built by `handlePluginMessage`: starts as
`{id: message.id}` and gains exactly one of `tabs`, `result`, `error`. -/
structure PluginResponse where
  id : Nat
  tabs : Option (List Tab)
  result : Option RespVal
  error : Option String
deriving DecidableEq, Repr

/-- `handlePluginMessage` from `background.js`: the `switch (message.action)`
dispatch. -/
def handlePluginMessage (w : World) (m : Request) : PluginResponse :=
  if m.action = "getTabs" then ⟨m.id, some w.tabs, none, none⟩
  else if m.action = "switchToURL" then ⟨m.id, none, some (.op (switchToURLW w m.url)), none⟩
  else if m.action = "activateTab" then ⟨m.id, none, some (.op (activateTabW w m.tabId m.windowId)), none⟩
  else if m.action = "ping" then ⟨m.id, none, some (.str "pong"), none⟩
  else ⟨m.id, none, none, some ("Unknown action: " ++ m.action)⟩

/-! ## Button display mapping (`plugin.js`, `updateButtonState` /
`getURLSnippet`) -/

/-- Per-button settings; absent fields of the JS settings object are `none`. -/
structure Settings where
  url : Option String
  title : Option String
deriving DecidableEq, Repr

/-- JS `a || b` on an optional string: the left operand wins when truthy
(present and nonempty). -/
def jsOrStr (a : Option String) (b : String) : String :=
  match a with
  | some s => if s = "" then b else s
  | none => b

/-- The `display` value of `getURLSnippet` before truncation: strip the
protocol, strip `www.`, take `split('/')[0]` (the segment before the first
slash).  No lowercasing happens here, unlike `normalizeURL`. -/
def hostPart (l : List Char) : List Char :=
  (stripWww (stripProto l)).takeWhile (fun c => c != '/')

/-- `getURLSnippet(url)` from `plugin.js`; `if (!url) return ''` covers both a
missing and an empty configured URL. -/
def getURLSnippet (url : Option String) : String :=
  match url with
  | none => ""
  | some u =>
    if u = "" then ""
    else
      let d := hostPart u.data
      if 12 < d.length then String.mk (d.take 10 ++ ['…']) else String.mk d

/-- The title computed by `updateButtonState(context, connected)`:
the fixed disconnected indicator, or `settings.title || getURLSnippet(url)`. -/
def updateButtonTitle (connected : Bool) (s : Settings) : String :=
  if connected then jsOrStr s.title (getURLSnippet s.url)
  else "⚠️\nNo Browser"

/-! ## The `ExtensionServer` broker (`plugin.js`)

State: the WebSocket server handle (`wss` / `started`), the single extension
socket (collapsed to the boolean `connected`, the value of `isConnected()`),
the pending-request table (a list of outstanding request ids — the stored
continuations are abstracted into the emitted `BOutput` resolution events),
and the request-id counter.

Each operation returns the new state together with the list of observable
outputs it produces: registrations, continuation resolutions/rejections, the
`PeerUnavailable`-style immediate send failure, and pong transmissions. -/

structure ExtensionServer where
  started : Bool
  wssUp : Bool
  connected : Bool
  pending : List Nat
  requestId : Nat
deriving DecidableEq, Repr

/-- The state built by `new ExtensionServer()`. -/
def server0 : ExtensionServer := ⟨false, false, false, [], 0⟩

/-- Observable effects of a broker operation. `sendFailed` is the immediate
rejection with `Error('Chrome extension not connected')` (the spec's
`PeerUnavailable`); the three resolution constructors are the single call of
the stored continuation for the given id. -/
inductive BOutput where
  | registered (id : Nat)
  | resolvedOk (id : Nat)
  | rejectedErr (id : Nat)
  | rejectedTimeout (id : Nat)
  | sendFailed
  | pongSent
deriving DecidableEq, Repr

/-- `ExtensionServer.start()`: a no-op when `started` is already set;
otherwise bind the server (which may throw — `bindOk` false leaves the state
untouched apart from the log line) and set `started`. -/
def ExtensionServer.start (bindOk : Bool) (s : ExtensionServer) : ExtensionServer :=
  if s.started then s
  else if bindOk then { s with wssUp := true, started := true } else s

/-- `ExtensionServer.isConnected()`. -/
def ExtensionServer.isConnected (s : ExtensionServer) : Bool := s.connected

/-- `ExtensionServer.sendToExtension(action, data)` up to the point where the
envelope is on the wire: fail fast when not connected, otherwise allocate
`++this.requestId` and register it in `pendingRequests`. -/
def ExtensionServer.sendToExtension (s : ExtensionServer) : ExtensionServer × List BOutput :=
  if s.connected then
    let id := s.requestId + 1
    ({ s with requestId := id, pending := id :: s.pending }, [.registered id])
  else (s, [.sendFailed])

/-- Inbound message from the extension as read by `handleExtensionMessage`:
either a keep-alive ping (`message.action === 'ping'`) or a response envelope
`{id, result|error}` whose error truthiness is `hasError`. -/
structure ExtMsg where
  isPing : Bool
  id : Nat
  hasError : Bool
deriving DecidableEq, Repr

/-- `ExtensionServer.handleExtensionMessage(message)`: answer pings with an
uncorrelated pong; otherwise look the id up in the table, and when found
delete the entry and reject (on a truthy `error`) or resolve the stored
continuation.  An id with no entry is dropped. -/
def ExtensionServer.handleExtensionMessage (s : ExtensionServer) (m : ExtMsg) :
    ExtensionServer × List BOutput :=
  if m.isPing then (s, if s.connected then [.pongSent] else [])
  else if m.id ∈ s.pending then
    ({ s with pending := s.pending.filter (fun j => j != m.id) },
      if m.hasError then [.rejectedErr m.id] else [.resolvedOk m.id])
  else (s, [])

/-- The 10-second timer armed by `sendToExtension`: when it fires it rejects
with `Error('Request timeout')` only if the entry is still present, deleting
it first. -/
def ExtensionServer.timeoutFire (s : ExtensionServer) (id : Nat) :
    ExtensionServer × List BOutput :=
  if id ∈ s.pending then
    ({ s with pending := s.pending.filter (fun j => j != id) }, [.rejectedTimeout id])
  else (s, [])

/-- The `wss.on('connection')` handler: the new socket becomes the
authoritative extension socket. -/
def ExtensionServer.connectPeer (s : ExtensionServer) : ExtensionServer :=
  { s with connected := true }

/-- The `ws.on('close')` handler: when the closing socket is still the
current one, clear it (and notify liveness); the pending-request table is not
touched. -/
def ExtensionServer.closePeer (isCurrent : Bool) (s : ExtensionServer) :
    ExtensionServer × List BOutput :=
  (if isCurrent then { s with connected := false } else s, [])

/-- The broker events that can hit an `ExtensionServer`. -/
inductive Ev where
  | connect
  | close (isCurrent : Bool)
  | send
  | recv (m : ExtMsg)
  | timeout (id : Nat)
deriving DecidableEq, Repr

def step (s : ExtensionServer) : Ev → ExtensionServer × List BOutput
  | .connect => (s.connectPeer, [])
  | .close c => s.closePeer c
  | .send => s.sendToExtension
  | .recv m => s.handleExtensionMessage m
  | .timeout id => s.timeoutFire id

def run (s : ExtensionServer) : List Ev → ExtensionServer × List BOutput
  | [] => (s, [])
  | e :: es =>
    let r := step s e
    let r2 := run r.1 es
    (r2.1, r.2 ++ r2.2)

/-- Is `o` a resolution (fulfilment or rejection) of request `id`? -/
def isResFor (id : Nat) : BOutput → Bool
  | .resolvedOk j => j == id
  | .rejectedErr j => j == id
  | .rejectedTimeout j => j == id
  | _ => false

/-- Is `o` the registration of request `id`? -/
def isRegFor (id : Nat) : BOutput → Bool
  | .registered j => j == id
  | _ => false

/-- How often the continuation of request `id` is resolved or rejected in a
list of outputs. -/
def countRes (outs : List BOutput) (id : Nat) : Nat :=
  (outs.filter (isResFor id)).length

/-- How often request `id` is registered in the table. -/
def countReg (outs : List BOutput) (id : Nat) : Nat :=
  (outs.filter (isRegFor id)).length

/-! ## Native messaging host (`native-host.js`): the 30-second sweep

The host's pending table maps the outbound id to `{ws, originalId,
timestamp}` — there is no stored continuation.  The sweep deletes entries
older than 30 seconds and counts them; its loop body performs no `ws.send`
and resolves nothing, which the third component (the list of ids that get a
`Timeout` delivered) records as always empty. -/

structure NHPending where
  originalId : Nat
  timestamp : Nat
deriving DecidableEq, Repr

/-- The `setInterval` sweep of `native-host.js`: delete every entry with
`now - timestamp > 30000`, count the deletions; deliver nothing. -/
def sweep (now : Nat) (tbl : List (Nat × NHPending)) :
    List (Nat × NHPending) × Nat × List Nat :=
  let stale := tbl.filter (fun e => decide (30000 < now - e.2.timestamp))
  (tbl.filter (fun e => ! decide (30000 < now - e.2.timestamp)), stale.length, [])

/-! ### Concrete states reused by several witnesses -/

/-- A broker state with one outstanding request (id 1) and a live peer. -/
def serverPending1 : ExtensionServer := ⟨true, true, true, [1], 1⟩

/-- A one-entry native-host table: outbound id 1, original id 7, sent at
time 0. -/
def nhTbl0 : List (Nat × NHPending) := [(1, ⟨7, 0⟩)]

/-- The broker invariant tying a reachable `ExtensionServer` state to the
outputs emitted so far: ids are registered at most once and never above the
counter, every pending id is registered and unresolved, every registered id
is either still pending or resolved exactly once, and resolutions never
outnumber registrations. -/
def Inv (s : ExtensionServer) (outs : List BOutput) : Prop :=
  (∀ id, 1 ≤ countReg outs id → id ≤ s.requestId) ∧
  (∀ id, countReg outs id ≤ 1) ∧
  (∀ id, id ∈ s.pending → countReg outs id = 1 ∧ countRes outs id = 0) ∧
  (∀ id, 1 ≤ countReg outs id → id ∈ s.pending ∨ countRes outs id = 1) ∧
  (∀ id, countRes outs id ≤ countReg outs id)

end UrlSwitcher

namespace UrlSwitcher

/-! ## Lemmas about URL normalization -/

theorem pre_append_seg (l : List Char) : pre l ++ seg l = l := by
  unfold pre seg
  rw [← List.reverse_append, List.takeWhile_append_dropWhile, List.reverse_reverse]

theorem notNl_of_mem_seg {l : List Char} {c : Char} (h : c ∈ seg l) : notNl c = true := by
  unfold seg at h
  rw [List.mem_reverse] at h
  exact List.mem_takeWhile_imp h

theorem takeWhile_append_all {p : Char → Bool} {a : List Char} (b : List Char)
    (h : ∀ c ∈ a, p c = true) : (a ++ b).takeWhile p = a ++ b.takeWhile p := by
  induction a with
  | nil => rfl
  | cons c cs ih =>
    rw [List.cons_append, List.takeWhile_cons_of_pos (h c (List.mem_cons_self c cs)),
      List.cons_append, ih (fun d hd => h d (List.mem_cons_of_mem c hd))]

theorem takeWhile_dropWhile_nil {p : Char → Bool} (l : List Char) :
    (l.dropWhile p).takeWhile p = [] := by
  induction l with
  | nil => rfl
  | cons c cs ih =>
    by_cases h : p c = true
    · rw [List.dropWhile_cons_of_pos h]
      exact ih
    · rw [List.dropWhile_cons_of_neg h, List.takeWhile_cons_of_neg h]

theorem seg_pre_append_takeWhile (l : List Char) :
    seg (pre l ++ (seg l).takeWhile (fun c => c != '#')) =
      (seg l).takeWhile (fun c => c != '#') := by
  set t := (seg l).takeWhile (fun c => c != '#') with ht
  have hsub : ∀ c ∈ t, notNl c = true := by
    intro c hc
    exact notNl_of_mem_seg ((List.takeWhile_sublist _).subset hc)
  unfold seg
  rw [List.reverse_append]
  have hpre : (pre l).reverse = l.reverse.dropWhile notNl := by
    unfold pre
    rw [List.reverse_reverse]
  rw [hpre, takeWhile_append_all _ (fun c hc => hsub c (List.mem_reverse.mp hc)),
    takeWhile_dropWhile_nil, List.append_nil, List.reverse_reverse]

/-- Stripping the URL fragment is idempotent: after one strip, the maximal
newline-free suffix contains no `#` any more. -/
theorem fragStrip_fragStrip (l : List Char) : fragStrip (fragStrip l) = fragStrip l := by
  by_cases h : '#' ∈ seg l
  · have hf : fragStrip l = pre l ++ (seg l).takeWhile (fun c => c != '#') := by
      unfold fragStrip
      rw [if_pos h]
    have hnot : '#' ∉ seg (fragStrip l) := by
      rw [hf, seg_pre_append_takeWhile]
      intro hmem
      have := List.mem_takeWhile_imp hmem
      simp at this
    rw [hf] at hnot ⊢
    unfold fragStrip
    rw [if_neg hnot]
  · have hf : fragStrip l = l := by
      unfold fragStrip
      rw [if_neg h]
    rw [hf, hf]

theorem fragStrip_sublist (l : List Char) : (fragStrip l).Sublist l := by
  unfold fragStrip
  by_cases h : '#' ∈ seg l
  · rw [if_pos h]
    conv_rhs => rw [← pre_append_seg l]
    exact (List.append_sublist_append_left _).mpr (List.takeWhile_sublist _)
  · rw [if_neg h]

theorem stripProto_sublist (l : List Char) : (stripProto l).Sublist l := by
  unfold stripProto
  by_cases h1 : protoHttps.isPrefixOf l
  · rw [if_pos h1]
    exact List.drop_sublist 8 l
  · rw [if_neg h1]
    by_cases h2 : protoHttp.isPrefixOf l
    · rw [if_pos h2]
      exact List.drop_sublist 7 l
    · rw [if_neg h2]

theorem stripWww_sublist (l : List Char) : (stripWww l).Sublist l := by
  unfold stripWww
  by_cases h : wwwDot.isPrefixOf l
  · rw [if_pos h]
    exact List.drop_sublist 4 l
  · rw [if_neg h]

theorem stripSlash_sublist (l : List Char) : (stripSlash l).Sublist l := by
  unfold stripSlash
  by_cases h : l.getLast? = some '/'
  · rw [if_pos h]
    exact List.dropLast_sublist l
  · rw [if_neg h]

theorem toLower_toLower (c : Char) : c.toLower.toLower = c.toLower := by
  by_cases h : c.toNat ≥ 65 ∧ c.toNat ≤ 90
  · have h1 : c.toLower = Char.ofNat (c.toNat + 32) := by
      unfold Char.toLower
      rw [if_pos h]
    rw [h1]
    obtain ⟨ha, hb⟩ := h
    generalize c.toNat = n at ha hb ⊢
    interval_cases n <;> decide
  · have h1 : c.toLower = c := by
      unfold Char.toLower
      rw [if_neg h]
    rw [h1, h1]

theorem normList_sublist_lowerL (l : List Char) : (normList l).Sublist (lowerL l) :=
  ((fragStrip_sublist _).trans ((stripSlash_sublist _).trans (stripWww_sublist _))).trans
    (stripProto_sublist _)

theorem toLower_fixed_of_mem_lowerL {l : List Char} {c : Char} (h : c ∈ lowerL l) :
    c.toLower = c := by
  unfold lowerL at h
  rw [List.mem_map] at h
  obtain ⟨d, _, rfl⟩ := h
  exact toLower_toLower d

theorem lowerL_eq_self {l : List Char} (h : ∀ d ∈ l, d.toLower = d) : lowerL l = l := by
  induction l with
  | nil => rfl
  | cons c cs ih =>
    have ih2 := ih (fun d hd => h d (List.mem_cons_of_mem c hd))
    unfold lowerL at ih2 ⊢
    rw [List.map_cons, h c (List.mem_cons_self c cs), ih2]

theorem lowerL_normList (l : List Char) : lowerL (normList l) = normList l :=
  lowerL_eq_self fun _ hc =>
    toLower_fixed_of_mem_lowerL ((normList_sublist_lowerL l).subset hc)

/-! ## Claim C4 -/

/-- C4 counterexample: `normalizeURL` is not idempotent.  On `"a/#b"` the
first pass strips the fragment after the trailing-slash step has already run,
leaving `"a/"`; a second pass strips the now-exposed trailing slash, giving
`"a"`. -/
theorem normalizeURL_not_idempotent :
    normalizeURL (normalizeURL "a/#b") ≠ normalizeURL "a/#b" := by decide

/-- C4 (amended): `normalizeURL` is idempotent on every input whose
normalized form does not begin with `http://`, `https://` or `www.` and does
not end with `/`.  (In general a second pass can strip further: fragment
removal can expose a trailing slash, and a doubled `www.` or protocol marker
is stripped one layer per pass.) -/
theorem normalizeURL_idem_of_reduced (u : String)
    (h1 : protoHttps.isPrefixOf (normalizeURL u).data = false)
    (h2 : protoHttp.isPrefixOf (normalizeURL u).data = false)
    (h3 : wwwDot.isPrefixOf (normalizeURL u).data = false)
    (h4 : (normalizeURL u).data.getLast? ≠ some '/') :
    normalizeURL (normalizeURL u) = normalizeURL u := by
  by_cases hu : u = ""
  · subst hu
    rfl
  · have hval : normalizeURL u = String.mk (normList u.data) := by
      unfold normalizeURL
      rw [if_neg hu]
    rw [hval] at h1 h2 h3 h4 ⊢
    by_cases hr0 : String.mk (normList u.data) = ""
    · rw [hr0]
      rfl
    · unfold normalizeURL
      rw [if_neg hr0]
      refine congrArg String.mk ?_
      set r := normList u.data with hr
      have h1' : protoHttps.isPrefixOf r = false := h1
      have h2' : protoHttp.isPrefixOf r = false := h2
      have h3' : wwwDot.isPrefixOf r = false := h3
      have h4' : r.getLast? ≠ some '/' := h4
      show normList r = r
      have e1 : lowerL r = r := by
        rw [hr]
        exact lowerL_normList u.data
      have e2 : stripProto r = r := by
        unfold stripProto
        rw [if_neg (by simp [h1']), if_neg (by simp [h2'])]
      have e3 : stripWww r = r := by
        unfold stripWww
        rw [if_neg (by simp [h3'])]
      have e4 : stripSlash r = r := by
        unfold stripSlash
        rw [if_neg h4']
      have e5 : fragStrip r = r := by
        rw [hr]
        unfold normList
        exact fragStrip_fragStrip _
      unfold normList
      rw [e1, e2, e3, e4]
      exact e5

/-- C4 witness: the amended idempotence theorem applied to a concrete URL
whose normalized form (`"github.com"`) satisfies the side conditions. -/
theorem normalizeURL_idem_witness :
    normalizeURL (normalizeURL "HTTP://www.GitHub.com/") =
      normalizeURL "HTTP://www.GitHub.com/" :=
  normalizeURL_idem_of_reduced "HTTP://www.GitHub.com/"
    (by decide) (by decide) (by decide) (by decide)

end UrlSwitcher

namespace UrlSwitcher

/-! ## Claim C2 -/

/-- C2: whenever the peer is not connected at the moment `sendToExtension`
is invoked, the call fails immediately with the peer-unavailable rejection
and the broker state is left completely unchanged: no pending entry is
allocated, the request-id counter is not incremented, and nothing is
queued. -/
theorem send_disconnected_fails_unchanged (s : ExtensionServer)
    (h : s.isConnected = false) :
    s.sendToExtension = (s, [BOutput.sendFailed]) := by
  unfold ExtensionServer.sendToExtension
  unfold ExtensionServer.isConnected at h
  rw [h]
  simp

/-- C2 witness: the theorem at the freshly constructed (disconnected)
server. -/
theorem send_disconnected_fails_unchanged_witness :
    server0.sendToExtension = (server0, [BOutput.sendFailed]) :=
  send_disconnected_fails_unchanged server0 rfl

/-! ## Claim C10 -/

/-- C10: `start` is idempotent — invoking it when `started` is already set
returns without touching the server, the socket, the pending table or the
request-id counter. -/
theorem start_idempotent (s : ExtensionServer) (bindOk : Bool)
    (h : s.started = true) :
    s.start bindOk = s := by
  unfold ExtensionServer.start
  rw [h]
  simp

/-- C10 witness: starting an already-started server with outstanding state
changes nothing. -/
theorem start_idempotent_witness : serverPending1.start true = serverPending1 :=
  start_idempotent serverPending1 true rfl

/-! ## Claim C3 -/

/-- C3 counterexample: closing the authoritative peer connection does not
fail the outstanding pending request.  On a state with request 1 pending,
the close handler resolves nothing (`countRes … 1 = 0`), request 1 is still
in the table afterwards, and only the connected flag changes. -/
theorem close_does_not_fail_pending :
    countRes (serverPending1.closePeer true).2 1 = 0 ∧
      1 ∈ (serverPending1.closePeer true).1.pending ∧
      (serverPending1.closePeer true).1.connected = false := by decide

/-- C3 (amended): the close handler only clears the connected flag (when the
closing socket is still the current one) and notifies liveness; it fails no
pending request — the table and the counter are untouched and no
continuation is resolved.  Outstanding requests are rejected later by their
own 10-second timers. -/
theorem close_leaves_pending (s : ExtensionServer) (isCurrent : Bool) :
    (s.closePeer isCurrent).1.pending = s.pending ∧
      (s.closePeer isCurrent).1.requestId = s.requestId ∧
      (s.closePeer isCurrent).2 = [] ∧
      (s.closePeer isCurrent).1.connected = if isCurrent then false else s.connected := by
  unfold ExtensionServer.closePeer
  cases isCurrent <;> simp

/-! ## Claim C9 -/

/-- C9: on a request whose action tag is none of `getTabs`, `switchToURL`,
`activateTab`, `ping`, the agent replies with the same id, the error string
`"Unknown action: " ++ tag`, and neither a `result` nor a `tabs` field. -/
theorem unknown_action_reply (w : World) (m : Request)
    (h1 : m.action ≠ "getTabs") (h2 : m.action ≠ "switchToURL")
    (h3 : m.action ≠ "activateTab") (h4 : m.action ≠ "ping") :
    handlePluginMessage w m =
      ⟨m.id, none, none, some ("Unknown action: " ++ m.action)⟩ := by
  unfold handlePluginMessage
  rw [if_neg h1, if_neg h2, if_neg h3, if_neg h4]

/-- C9 witness: the theorem at a concrete unrecognized action. -/
theorem unknown_action_reply_witness :
    handlePluginMessage ⟨[], true, "", true, "", 0⟩ ⟨9, "doStuff", "", 0, 0⟩ =
      ⟨9, none, none, some "Unknown action: doStuff"⟩ :=
  unknown_action_reply ⟨[], true, "", true, "", 0⟩ ⟨9, "doStuff", "", 0, 0⟩
    (by decide) (by decide) (by decide) (by decide)

end UrlSwitcher

namespace UrlSwitcher

/-! ## Helper lemmas for tab matching -/

theorem empty_data_isPrefixOf (l : List Char) :
    (("" : String).data).isPrefixOf l = true := by
  cases l <;> rfl

/-! ## Claim C6 -/

/-- C6 counterexample: for the action tag `getTabs` the reply produced by the
browser-side agent carries neither a `result` nor an `error` field (the tab
list travels in a separate `tabs` field), so "exactly one of the two is
present for every action tag" fails. -/
theorem getTabs_reply_has_neither :
    (handlePluginMessage ⟨[], true, "", true, "", 0⟩ ⟨5, "getTabs", "", 0, 0⟩).result = none ∧
      (handlePluginMessage ⟨[], true, "", true, "", 0⟩ ⟨5, "getTabs", "", 0, 0⟩).error = none := by
  decide

/-- C6 (amended): on every reply, `result` and `error` are mutually
exclusive (never both present); exactly one of the two is present for every
action tag other than `getTabs`; a `getTabs` reply has neither and carries
the tab directory in `tabs` instead. -/
theorem response_result_error_fields (w : World) (m : Request) :
    ((handlePluginMessage w m).result.isSome && (handlePluginMessage w m).error.isSome) = false ∧
      (m.action ≠ "getTabs" →
        ((handlePluginMessage w m).result.isSome = true ↔
          (handlePluginMessage w m).error = none)) ∧
      (m.action = "getTabs" →
        (handlePluginMessage w m).result = none ∧
          (handlePluginMessage w m).error = none ∧
          (handlePluginMessage w m).tabs = some w.tabs) := by
  by_cases hg : m.action = "getTabs"
  · simp [handlePluginMessage, hg]
  · by_cases hs : m.action = "switchToURL"
    · simp [handlePluginMessage, hg, hs]
    · by_cases ha : m.action = "activateTab"
      · simp [handlePluginMessage, hg, hs, ha]
      · by_cases hp : m.action = "ping"
        · simp [handlePluginMessage, hg, hs, ha, hp]
        · simp [handlePluginMessage, hg, hs, ha, hp]

/-- C6 witness: the amended field discipline at a concrete `ping` request. -/
theorem response_result_error_fields_witness :
    (handlePluginMessage ⟨[], true, "", true, "", 0⟩ ⟨2, "ping", "", 0, 0⟩).result.isSome = true ↔
      (handlePluginMessage ⟨[], true, "", true, "", 0⟩ ⟨2, "ping", "", 0, 0⟩).error = none :=
  (response_result_error_fields ⟨[], true, "", true, "", 0⟩ ⟨2, "ping", "", 0, 0⟩).2.1
    (by decide)

/-! ## Claim C8 -/

/-- C8: for every non-empty tab directory and every target whose
normalization is empty, `findTabByURL` returns the first tab: the empty
normalized target is a prefix of every normalized tab URL. -/
theorem findTab_empty_target (tabs : List Tab) (t : Tab) (rest : List Tab)
    (target : String) (htabs : tabs = t :: rest)
    (h : normalizeURL target = "") :
    findTabByURL tabs target = some t := by
  subst htabs
  by_cases he : normalizeURL t.url = ""
  · simp [findTabByURL, findTabAux, h, he]
  · simp [findTabByURL, findTabAux, h, he, empty_data_isPrefixOf]

/-- C8 witness: the target `"https://"` normalizes to the empty string, so
the first of two tabs is returned. -/
theorem findTab_empty_target_witness :
    findTabByURL [⟨1, 2, "https://a.com", "A", true, ""⟩, ⟨3, 4, "b", "B", false, ""⟩]
        "https://" = some ⟨1, 2, "https://a.com", "A", true, ""⟩ :=
  findTab_empty_target _ ⟨1, 2, "https://a.com", "A", true, ""⟩
    [⟨3, 4, "b", "B", false, ""⟩] "https://" rfl (by decide)

/-! ## Claim C7 -/

/-- C7: the button display mapping.  Disconnected buttons always show the
fixed indicator; connected buttons show the configured (truthy) title, else
the URL snippet; the snippet strips the protocol and `www.`, takes the part
before the first `/`, and truncates to 10 characters plus an ellipsis when
longer than 12; on `{url: "https://www.verylongdomain.com/x"}` with no title
this yields `"verylongdo…"`. -/
theorem display_mapping :
    (∀ s : Settings, updateButtonTitle false s = "⚠️\nNo Browser") ∧
      (∀ (s : Settings) (t : String), s.title = some t → t ≠ "" →
        updateButtonTitle true s = t) ∧
      (∀ s : Settings, (s.title = none ∨ s.title = some "") →
        updateButtonTitle true s = getURLSnippet s.url) ∧
      (∀ u : String, u ≠ "" → 12 < (hostPart u.data).length →
        getURLSnippet (some u) = String.mk ((hostPart u.data).take 10 ++ ['…'])) ∧
      (∀ u : String, u ≠ "" → ¬ 12 < (hostPart u.data).length →
        getURLSnippet (some u) = String.mk (hostPart u.data)) ∧
      updateButtonTitle true ⟨some "https://www.verylongdomain.com/x", none⟩ = "verylongdo…" := by
  refine ⟨fun s => rfl, ?_, ?_, ?_, ?_, by decide⟩
  · intro s t ht hne
    simp [updateButtonTitle, jsOrStr, ht, hne]
  · intro s h
    rcases h with h | h <;> simp [updateButtonTitle, jsOrStr, h]
  · intro u hu h12
    simp [getURLSnippet, hu, h12]
  · intro u hu h12
    simp [getURLSnippet, hu, h12]

/-- C7 witness: a connected button with a truthy configured title shows that
title. -/
theorem display_mapping_witness :
    updateButtonTitle true ⟨some "https://x", some "Lab"⟩ = "Lab" :=
  display_mapping.2.1 ⟨some "https://x", some "Lab"⟩ "Lab" rfl (by decide)

/-! ## Claim C5 -/

/-- C5 counterexample: at sweep time 40000 the single table entry (sent at
time 0) has been stale for well over the 30-second deadline; the sweep
removes it, but the list of delivered `Timeout` resolutions is empty — the
native host's sweep evicts silently and resolves no continuation. -/
theorem sweep_resolves_nothing :
    30000 < 40000 - (0 : Nat) ∧ (sweep 40000 nhTbl0).1 = [] ∧
      (sweep 40000 nhTbl0).2.2 = [] := by decide

/-- C5 (amended): the native host's 30-second sweep removes exactly the
entries older than 30 seconds — silently, delivering no `Timeout` resolution
to anyone; the timeout rejection of a plugin request instead comes from its
own per-request 10-second timer, which deletes the entry and rejects it. -/
theorem sweep_evicts_silently (now : Nat) (tbl : List (Nat × NHPending))
    (e : Nat × NHPending) (he : e ∈ tbl) :
    (30000 < now - e.2.timestamp → e ∉ (sweep now tbl).1) ∧
      (¬ 30000 < now - e.2.timestamp → e ∈ (sweep now tbl).1) ∧
      (sweep now tbl).2.2 = [] ∧
      (∀ (s : ExtensionServer) (id : Nat), id ∈ s.pending →
        s.timeoutFire id =
          ({ s with pending := s.pending.filter (fun j => j != id) },
            [BOutput.rejectedTimeout id])) := by
  have hs1 : (sweep now tbl).1 =
      tbl.filter (fun x => ! decide (30000 < now - x.2.timestamp)) := rfl
  refine ⟨?_, ?_, rfl, ?_⟩
  · intro h hmem
    rw [hs1] at hmem
    have := (List.mem_filter.mp hmem).2
    simp [h] at this
  · intro h
    rw [hs1]
    exact List.mem_filter.mpr ⟨he, by simp [h]⟩
  · intro s id hid
    unfold ExtensionServer.timeoutFire
    rw [if_pos hid]

/-- C5 witness: the stale entry of `nhTbl0` is gone after a sweep at 40000,
and the plugin's per-request timer rejects a pending request with a timeout,
removing it from the table. -/
theorem sweep_evicts_silently_witness :
    (1, (⟨7, 0⟩ : NHPending)) ∉ (sweep 40000 nhTbl0).1 ∧
      serverPending1.timeoutFire 1 =
        (⟨true, true, true, [], 1⟩, [BOutput.rejectedTimeout 1]) :=
  ⟨(sweep_evicts_silently 40000 nhTbl0 (1, ⟨7, 0⟩) (by decide)).1 (by decide),
    (sweep_evicts_silently 40000 nhTbl0 (1, ⟨7, 0⟩) (by decide)).2.2.2
      serverPending1 1 (by decide)⟩

end UrlSwitcher

namespace UrlSwitcher

/-! ## Lemmas about the broker invariant (claim C1) -/

theorem countReg_append (a b : List BOutput) (id : Nat) :
    countReg (a ++ b) id = countReg a id + countReg b id := by
  unfold countReg
  rw [List.filter_append, List.length_append]

theorem countRes_append (a b : List BOutput) (id : Nat) :
    countRes (a ++ b) id = countRes a id + countRes b id := by
  unfold countRes
  rw [List.filter_append, List.length_append]

theorem countReg_singleton (o : BOutput) (id : Nat) :
    countReg [o] id = if isRegFor id o then 1 else 0 := by
  unfold countReg
  by_cases h : isRegFor id o = true <;> simp [h]

theorem countRes_singleton (o : BOutput) (id : Nat) :
    countRes [o] id = if isResFor id o then 1 else 0 := by
  unfold countRes
  by_cases h : isResFor id o = true <;> simp [h]

/-- Changing only the connection/server flags of a state preserves the
invariant. -/
theorem inv_congr {s s' : ExtensionServer} {outs : List BOutput}
    (h1 : s'.pending = s.pending) (h2 : s'.requestId = s.requestId)
    (h : Inv s outs) : Inv s' outs := by
  unfold Inv at h ⊢
  rw [h1, h2]
  exact h

/-- Appending outputs that register and resolve nothing preserves the
invariant. -/
theorem inv_extend_neutral {s : ExtensionServer} {outs : List BOutput}
    (l : List BOutput) (h : Inv s outs)
    (hl : ∀ id, countReg l id = 0 ∧ countRes l id = 0) :
    Inv s (outs ++ l) := by
  obtain ⟨A, B, C, D, E⟩ := h
  refine ⟨?_, ?_, ?_, ?_, ?_⟩
  · intro id h1
    rw [countReg_append, (hl id).1] at h1
    exact A id (by omega)
  · intro id
    rw [countReg_append, (hl id).1]
    have := B id
    omega
  · intro id hid
    rw [countReg_append, countRes_append, (hl id).1, (hl id).2]
    have := C id hid
    omega
  · intro id h1
    rw [countReg_append, (hl id).1] at h1
    rcases D id (by omega) with hp | hr
    · exact Or.inl hp
    · refine Or.inr ?_
      rw [countRes_append, (hl id).2]
      omega
  · intro id
    rw [countReg_append, countRes_append, (hl id).1, (hl id).2]
    have := E id
    omega

theorem inv_init : Inv server0 [] := by
  refine ⟨?_, ?_, ?_, ?_, ?_⟩ <;> intro id <;> simp [countReg, countRes, server0]

end UrlSwitcher

namespace UrlSwitcher

/-- Resolving a pending id (matching response or fired timeout): the entry is
deleted and exactly one resolution for that id is emitted. -/
theorem inv_resolve {s : ExtensionServer} {outs : List BOutput}
    (rid : Nat) (o : BOutput) (h : Inv s outs) (hmem : rid ∈ s.pending)
    (ho : ∀ id, isRegFor id o = false)
    (hro : ∀ id, isResFor id o = true ↔ id = rid) :
    Inv { s with pending := s.pending.filter (fun j => j != rid) } (outs ++ [o]) := by
  obtain ⟨A, B, C, D, E⟩ := h
  have hcreg : ∀ id, countReg (outs ++ [o]) id = countReg outs id := by
    intro id
    rw [countReg_append, countReg_singleton, ho id]
    simp
  have hcres : ∀ id, countRes (outs ++ [o]) id =
      countRes outs id + (if id = rid then 1 else 0) := by
    intro id
    rw [countRes_append, countRes_singleton]
    by_cases hid : id = rid
    · rw [if_pos ((hro id).mpr hid), if_pos hid]
    · rw [if_neg (fun hc => hid ((hro id).mp hc)), if_neg hid]
  refine ⟨?_, ?_, ?_, ?_, ?_⟩
  · intro id h1
    rw [hcreg] at h1
    exact A id h1
  · intro id
    rw [hcreg]
    exact B id
  · intro id hid
    have hid' : id ∈ s.pending ∧ id ≠ rid := by
      have hm := List.mem_filter.mp hid
      refine ⟨hm.1, ?_⟩
      simpa using hm.2
    rw [hcreg, hcres, if_neg hid'.2]
    have := C id hid'.1
    omega
  · intro id h1
    rw [hcreg] at h1
    rcases D id h1 with hp | hr
    · by_cases hid : id = rid
      · subst hid
        refine Or.inr ?_
        rw [hcres, if_pos rfl, (C id hmem).2]
      · refine Or.inl ?_
        exact List.mem_filter.mpr ⟨hp, by simp [hid]⟩
    · refine Or.inr ?_
      by_cases hid : id = rid
      · subst hid
        rw [(C id hmem).2] at hr
        omega
      · rw [hcres, if_neg hid, hr]
  · intro id
    rw [hcreg, hcres]
    by_cases hid : id = rid
    · subst hid
      rw [(C id hmem).2, (C id hmem).1]
      simp
    · rw [if_neg hid]
      have := E id
      omega

/-- A successful send registers a fresh id (the incremented counter) and
pushes it onto the pending table. -/
theorem inv_send {s : ExtensionServer} {outs : List BOutput} (h : Inv s outs) :
    Inv s.sendToExtension.1 (outs ++ s.sendToExtension.2) := by
  by_cases hc : s.connected
  · have hs : s.sendToExtension =
        ({ s with requestId := s.requestId + 1, pending := (s.requestId + 1) :: s.pending },
          [.registered (s.requestId + 1)]) := by
      unfold ExtensionServer.sendToExtension
      rw [if_pos hc]
    rw [hs]
    obtain ⟨A, B, C, D, E⟩ := h
    set n := s.requestId + 1 with hn
    have hregn : countReg outs n = 0 := by
      by_contra hne
      have h2 := A n (Nat.one_le_iff_ne_zero.mpr hne)
      omega
    have hcreg : ∀ id, countReg (outs ++ [BOutput.registered n]) id =
        countReg outs id + (if id = n then 1 else 0) := by
      intro id
      rw [countReg_append, countReg_singleton]
      by_cases hid : id = n
      · have h1 : isRegFor id (BOutput.registered n) = true := by simp [isRegFor, hid]
        rw [if_pos h1, if_pos hid]
      · have h1 : ¬ isRegFor id (BOutput.registered n) = true := by
          simp [isRegFor]
          omega
        rw [if_neg h1, if_neg hid]
    have hcres : ∀ id, countRes (outs ++ [BOutput.registered n]) id = countRes outs id := by
      intro id
      rw [countRes_append, countRes_singleton]
      simp [isResFor]
    refine ⟨?_, ?_, ?_, ?_, ?_⟩
    · intro id h1
      rw [hcreg] at h1
      show id ≤ n
      by_cases hid : id = n
      · omega
      · rw [if_neg hid] at h1
        have := A id (by omega)
        omega
    · intro id
      rw [hcreg]
      by_cases hid : id = n
      · rw [if_pos hid, hid, hregn]
      · rw [if_neg hid]
        have := B id
        omega
    · intro id hid
      rw [hcreg, hcres]
      rcases List.mem_cons.mp hid with hid1 | hid2
      · rw [if_pos hid1, hid1, hregn]
        have hE := E n
        rw [hregn] at hE
        omega
      · have hc2 := C id hid2
        by_cases hidn : id = n
        · exfalso
          rw [hidn, hregn] at hc2
          omega
        · rw [if_neg hidn]
          omega
    · intro id h1
      rw [hcreg] at h1
      by_cases hid : id = n
      · refine Or.inl ?_
        rw [hid]
        exact List.mem_cons_self _ _
      · rw [if_neg hid] at h1
        rcases D id (by omega) with hp | hr
        · exact Or.inl (List.mem_cons_of_mem _ hp)
        · refine Or.inr ?_
          rw [hcres]
          exact hr
    · intro id
      rw [hcreg, hcres]
      have := E id
      by_cases hid : id = n
      · rw [if_pos hid]
        omega
      · rw [if_neg hid]
        omega
  · have hs : s.sendToExtension = (s, [.sendFailed]) := by
      unfold ExtensionServer.sendToExtension
      rw [if_neg hc]
    rw [hs]
    exact inv_extend_neutral _ h (fun id => ⟨rfl, rfl⟩)

end UrlSwitcher

namespace UrlSwitcher

/-- Every broker event preserves the invariant. -/
theorem inv_step (s : ExtensionServer) (outs : List BOutput) (e : Ev)
    (h : Inv s outs) : Inv (step s e).1 (outs ++ (step s e).2) := by
  cases e with
  | connect =>
    rw [show (step s Ev.connect).2 = [] from rfl, List.append_nil]
    exact inv_congr rfl rfl h
  | close c =>
    cases c with
    | true =>
      rw [show (step s (Ev.close true)).2 = [] from rfl, List.append_nil]
      exact inv_congr rfl rfl h
    | false =>
      rw [show (step s (Ev.close false)).2 = [] from rfl, List.append_nil]
      exact inv_congr rfl rfl h
  | send => exact inv_send h
  | recv m =>
    show Inv (s.handleExtensionMessage m).1 (outs ++ (s.handleExtensionMessage m).2)
    by_cases hping : m.isPing
    · have hs : s.handleExtensionMessage m = (s, if s.connected then [.pongSent] else []) := by
        unfold ExtensionServer.handleExtensionMessage
        rw [if_pos hping]
      rw [hs]
      by_cases hc : s.connected
      · rw [if_pos hc]
        exact inv_extend_neutral _ h (fun id => ⟨rfl, rfl⟩)
      · rw [if_neg hc, List.append_nil]
        exact h
    · by_cases hmem : m.id ∈ s.pending
      · have hs : s.handleExtensionMessage m =
            ({ s with pending := s.pending.filter (fun j => j != m.id) },
              if m.hasError then [.rejectedErr m.id] else [.resolvedOk m.id]) := by
          unfold ExtensionServer.handleExtensionMessage
          rw [if_neg hping, if_pos hmem]
        rw [hs]
        by_cases herr : m.hasError
        · rw [if_pos herr]
          refine inv_resolve m.id _ h hmem (fun id => rfl) (fun id => ?_)
          simp [isResFor]
          exact eq_comm
        · rw [if_neg herr]
          refine inv_resolve m.id _ h hmem (fun id => rfl) (fun id => ?_)
          simp [isResFor]
          exact eq_comm
      · have hs : s.handleExtensionMessage m = (s, []) := by
          unfold ExtensionServer.handleExtensionMessage
          rw [if_neg hping, if_neg hmem]
        rw [hs, List.append_nil]
        exact h
  | timeout id =>
    show Inv (s.timeoutFire id).1 (outs ++ (s.timeoutFire id).2)
    by_cases hmem : id ∈ s.pending
    · have hs : s.timeoutFire id =
          ({ s with pending := s.pending.filter (fun j => j != id) },
            [.rejectedTimeout id]) := by
        unfold ExtensionServer.timeoutFire
        rw [if_pos hmem]
      rw [hs]
      refine inv_resolve id _ h hmem (fun j => rfl) (fun j => ?_)
      simp [isResFor]
      exact eq_comm
    · have hs : s.timeoutFire id = (s, []) := by
        unfold ExtensionServer.timeoutFire
        rw [if_neg hmem]
      rw [hs, List.append_nil]
      exact h

/-- Running a trace preserves the invariant. -/
theorem inv_run (s : ExtensionServer) (outs : List BOutput) (evs : List Ev)
    (h : Inv s outs) : Inv (run s evs).1 (outs ++ (run s evs).2) := by
  induction evs generalizing s outs with
  | nil => simpa [run] using h
  | cons e es ih =>
    have h2 := ih (step s e).1 (outs ++ (step s e).2) (inv_step s outs e h)
    simpa [run, List.append_assoc] using h2

theorem run_append (s : ExtensionServer) (l1 l2 : List Ev) :
    run s (l1 ++ l2) =
      ((run (run s l1).1 l2).1, (run s l1).2 ++ (run (run s l1).1 l2).2) := by
  induction l1 generalizing s with
  | nil => simp [run]
  | cons e es ih => simp [run, ih, List.append_assoc]

end UrlSwitcher

namespace UrlSwitcher

/-- C1: for every request id registered in the pending table, the broker
resolves or rejects that continuation exactly once.  Over any event trace at
most one resolution per id is emitted; a registered id whose timeout event
fires is resolved exactly once (by the matching response, which removed the
entry first, or else by the timeout itself); and a response envelope whose id
has no table entry is dropped without state change or resolution. -/
theorem broker_resolves_exactly_once (evs1 evs2 : List Ev) (id : Nat) :
    countRes (run server0 (evs1 ++ evs2)).2 id ≤ 1 ∧
      (countReg (run server0 evs1).2 id = 1 →
        countRes (run server0 (evs1 ++ Ev.timeout id :: evs2)).2 id = 1) ∧
      (∀ (s : ExtensionServer) (m : ExtMsg), m.isPing = false → m.id ∉ s.pending →
        s.handleExtensionMessage m = (s, [])) := by
  refine ⟨?_, ?_, ?_⟩
  · have h := inv_run server0 [] (evs1 ++ evs2) inv_init
    rw [List.nil_append] at h
    obtain ⟨A, B, C, D, E⟩ := h
    exact le_trans (E id) (B id)
  · intro hreg
    have hinv1 := inv_run server0 [] evs1 inv_init
    rw [List.nil_append] at hinv1
    obtain ⟨A1, B1, C1, D1, E1⟩ := hinv1
    have hafter : countRes ((run server0 evs1).1.timeoutFire id).2 id +
        countRes (run server0 evs1).2 id = 1 := by
      by_cases hmem : id ∈ (run server0 evs1).1.pending
      · have ht : ((run server0 evs1).1.timeoutFire id).2 = [BOutput.rejectedTimeout id] := by
          unfold ExtensionServer.timeoutFire
          rw [if_pos hmem]
        rw [ht, (C1 id hmem).2, countRes_singleton]
        simp [isResFor]
      · have ht : ((run server0 evs1).1.timeoutFire id).2 = [] := by
          unfold ExtensionServer.timeoutFire
          rw [if_neg hmem]
        rw [ht]
        rcases D1 id (by omega) with hp | hr
        · exact absurd hp hmem
        · show countRes [] id + countRes (run server0 evs1).2 id = 1
          rw [show countRes [] id = 0 from rfl]
          omega
    have hfull : (run server0 (evs1 ++ Ev.timeout id :: evs2)).2 =
        (run server0 evs1).2 ++
          ((step (run server0 evs1).1 (Ev.timeout id)).2 ++
            (run (step (run server0 evs1).1 (Ev.timeout id)).1 evs2).2) := by
      rw [run_append]
      simp [run]
    have hb : countRes (run server0 (evs1 ++ Ev.timeout id :: evs2)).2 id ≤ 1 := by
      have h := inv_run server0 [] (evs1 ++ Ev.timeout id :: evs2) inv_init
      rw [List.nil_append] at h
      obtain ⟨A, B, C, D, E⟩ := h
      exact le_trans (E id) (B id)
    rw [hfull] at hb ⊢
    rw [countRes_append, countRes_append] at hb ⊢
    have hstep2 : (step (run server0 evs1).1 (Ev.timeout id)).2 =
        ((run server0 evs1).1.timeoutFire id).2 := rfl
    rw [hstep2] at hb ⊢
    omega
  · intro s m hping hmem
    unfold ExtensionServer.handleExtensionMessage
    rw [if_neg (by simp [hping]), if_neg hmem]

/-- C1 witness: after a connect and a send, request 1 is registered; running
the trace through its timeout event yields exactly one resolution for it, and
a response for the unknown id 1 on the fresh server is dropped unchanged. -/
theorem broker_resolves_exactly_once_witness :
    countRes (run server0 ([Ev.connect, Ev.send] ++ Ev.timeout 1 :: [])).2 1 = 1 ∧
      server0.handleExtensionMessage ⟨false, 1, false⟩ = (server0, []) :=
  ⟨(broker_resolves_exactly_once [Ev.connect, Ev.send] [] 1).2.1 (by decide),
    (broker_resolves_exactly_once [] [] 1).2.2 server0 ⟨false, 1, false⟩ rfl (by decide)⟩

end UrlSwitcher
